import Mathlib

/-!
Shallow embedding of src/rs/replicated_state/src/page_map/page_allocator/heap.rs:
the heap-backed page allocator of the page-map subsystem.

Pages are fixed-size byte buffers (PageBytes, size PAGE_SIZE); bytes are
modelled as natural numbers in a list. The process-wide live-page counter
ALLOCATED_PAGES (declared outside the sampled sources; the spec describes it
as a process-wide integer counter with atomic increment and decrement) is
modelled as an Int threaded explicitly through the operations that touch it.
Rust panics (unreachable! on a tag mismatch, out-of-bounds slicing) are
modelled as Option.none.
-/

namespace HeapPageAlloc

/-- Size of one page in bytes, the platform page granularity. -/
def PAGE_SIZE : Nat := 4096

/-- Modelled from the spec: PageIndex is an opaque ordinal identifying a page's
position, equality by value (a u64 newtype in ic_sys, outside the sampled sources). -/
abbrev PageIndex := Nat

/-- Modelled from the spec: PageBytes is a fixed-size byte buffer (size PAGE_SIZE,
an array type in ic_sys, outside the sampled sources). Modelled as a list of bytes;
well-formedness (length = PAGE_SIZE) is carried as a hypothesis where a claim needs it. -/
abbrev PageBytes := List Nat

/-- A memory page allocated on the Rust heap: HeapBasedPage(PageBytes).
The shared handle Page(Arc) is identified with the page it points to; aliasing
and reference counts are modelled separately by the PageOp machine below. -/
structure HeapBasedPage where
  bytes : PageBytes
  deriving DecidableEq

/-- A trivial allocator that delegates to the Rust heap allocator: a struct with no fields. -/
structure HeapBasedPageAllocator where
  deriving DecidableEq

/-- Modelled from the spec: the mapping-context record carried by the mapped
backend's serialized forms (a backing-store handle/descriptor; the concrete type
lives outside the sampled sources). -/
structure MmapCtx where
  fileDescriptor : Nat
  deriving DecidableEq

/-- Modelled from the spec: the allocator-identity tag, one of
no-pages-yet (Empty), heap-backed (Heap), mapped-backed-with-context (Mmap).
The variant names match the patterns heap.rs matches on. -/
inductive PageAllocatorSerialization where
  | Empty : PageAllocatorSerialization
  | Heap : PageAllocatorSerialization
  | Mmap : MmapCtx → PageAllocatorSerialization
  deriving DecidableEq

/-- Modelled from the spec: one serialized page record, index plus bytes. -/
structure PageSerialization where
  index : PageIndex
  bytes : PageBytes
  deriving DecidableEq

/-- Modelled from the spec: the page-delta payload, one of empty, a heap-backed
list of index-plus-bytes records, or a mapped-backed mapping context plus a list
of index-to-offset pairs. The variant names match the patterns heap.rs matches on. -/
inductive PageDeltaSerialization where
  | Empty : PageDeltaSerialization
  | Heap : List PageSerialization → PageDeltaSerialization
  | Mmap : MmapCtx → List (PageIndex × Nat) → PageDeltaSerialization
  deriving DecidableEq

/-- HeapBasedPage::new: increments ALLOCATED_PAGES, then copies the contents
into a fresh buffer. Returns the updated counter together with the page. -/
def HeapBasedPage.new (c : Int) (contents : PageBytes) : Int × HeapBasedPage :=
  (c + 1, ⟨contents⟩)

/-- PageInner::contents for HeapBasedPage: a read-only view of the bytes; the
allocator argument is ignored by the heap backend. -/
def HeapBasedPage.contents (p : HeapBasedPage) (_a : HeapBasedPageAllocator) : PageBytes :=
  p.bytes

/-- PageInner::copy_from_slice for HeapBasedPage:
(self.0[offset..offset + slice.len()]).copy_from_slice(slice).
Indexing out of the buffer's range panics in Rust, modelled as none. -/
def HeapBasedPage.copy_from_slice (p : HeapBasedPage) (offset : Nat) (slice : List Nat)
    (_a : HeapBasedPageAllocator) : Option HeapBasedPage :=
  if offset + slice.length ≤ p.bytes.length then
    some ⟨p.bytes.take offset ++ slice ++ p.bytes.drop (offset + slice.length)⟩
  else
    none

/-- PageAllocatorInner::allocate for HeapBasedPageAllocator: maps each input pair
to (index, Page(Arc::new(HeapBasedPage::new(contents)))), threading the global
counter through each HeapBasedPage::new. -/
def HeapBasedPageAllocator.allocate (a : HeapBasedPageAllocator) (c : Int) :
    List (PageIndex × PageBytes) → Int × List (PageIndex × HeapBasedPage)
  | [] => (c, [])
  | (i, b) :: rest =>
    let s := HeapBasedPage.new c b
    let r := HeapBasedPageAllocator.allocate a s.1 rest
    (r.1, (i, s.2) :: r.2)

/-- PageAllocatorInner::serialize for HeapBasedPageAllocator: always the
zero-payload Heap tag. -/
def HeapBasedPageAllocator.serialize (_a : HeapBasedPageAllocator) :
    PageAllocatorSerialization :=
  PageAllocatorSerialization.Heap

/-- PageAllocatorInner::deserialize for HeapBasedPageAllocator: Default::default()
on the Heap tag; unreachable! (modelled as none) on Empty or Mmap. -/
def HeapBasedPageAllocator.deserialize (s : PageAllocatorSerialization) :
    Option HeapBasedPageAllocator :=
  match s with
  | PageAllocatorSerialization.Heap => some ⟨⟩
  | PageAllocatorSerialization.Empty => none
  | PageAllocatorSerialization.Mmap _ => none

/-- PageAllocatorInner::serialize_page_delta for HeapBasedPageAllocator: copies
the contents of every page into a flat list of PageSerialization records,
tagged Heap. -/
def HeapBasedPageAllocator.serialize_page_delta (a : HeapBasedPageAllocator)
    (page_delta : List (PageIndex × HeapBasedPage)) : PageDeltaSerialization :=
  PageDeltaSerialization.Heap
    (page_delta.map fun q => ⟨q.1, q.2.contents a⟩)

/-- PageAllocatorInner::deserialize_page_delta for HeapBasedPageAllocator.
On a Heap payload each record is turned into Page(Arc::new(HeapBasedPage(page.bytes))):
the tuple-struct constructor, not HeapBasedPage::new, so the counter c is returned
unchanged. Empty and Mmap payloads hit unreachable!, modelled as none. -/
def HeapBasedPageAllocator.deserialize_page_delta (_a : HeapBasedPageAllocator) (c : Int)
    (page_delta : PageDeltaSerialization) :
    Option (Int × List (PageIndex × HeapBasedPage)) :=
  match page_delta with
  | PageDeltaSerialization.Heap recs =>
    some (c, recs.map fun r => (r.index, ⟨r.bytes⟩))
  | PageDeltaSerialization.Empty => none
  | PageDeltaSerialization.Mmap _ _ => none

/-!
Operational model of shared handles for the accounting claims: the live heap
pages of the process are a list of reference counts (one entry per underlying
HeapBasedPage, in construction order), next to the ALLOCATED_PAGES counter.
Allocation appends pages with one handle each and increments the counter once
per construction (HeapBasedPage::new); cloning a Page handle bumps the Arc
count only; dropping the last handle of a page runs Drop for HeapBasedPage,
which decrements the counter (modelled from the spec for the Arc behaviour:
the underlying storage is released exactly when the last holder drops its handle). -/

/-- Counter plus reference counts of the live heap pages. -/
structure PageOpState where
  counter : Int
  live : List Nat
  deriving DecidableEq

/-- One step a caller can take: allocate a batch of n pages, clone a handle of
live page i, or drop one handle of live page i. -/
inductive PageOp where
  | alloc : Nat → PageOp
  | clonePage : Nat → PageOp
  | dropHandle : Nat → PageOp
  deriving DecidableEq

/-- Effect of one operation: alloc n runs HeapBasedPage::new n times (counter + n,
n fresh pages with one handle each); clonePage bumps a refcount; dropHandle
decrements a refcount, and when the last handle goes, Drop for HeapBasedPage
decrements the counter and the page is freed. Operations naming no live page
leave the state unchanged. -/
def execOp (st : PageOpState) : PageOp → PageOpState
  | PageOp.alloc n => ⟨st.counter + n, st.live ++ List.replicate n 1⟩
  | PageOp.clonePage i =>
    if i < st.live.length then ⟨st.counter, st.live.set i (st.live.getD i 0 + 1)⟩ else st
  | PageOp.dropHandle i =>
    if i < st.live.length then
      if st.live.getD i 0 = 1 then ⟨st.counter - 1, st.live.eraseIdx i⟩
      else ⟨st.counter, st.live.set i (st.live.getD i 0 - 1)⟩
    else st

/-- Run a sequence of operations. -/
def execOps (st : PageOpState) : List PageOp → PageOpState
  | [] => st
  | op :: ops => execOps (execOp st op) ops

/-- Number of pages constructed by a sequence of operations. -/
def constructedCount : List PageOp → Nat
  | [] => 0
  | PageOp.alloc n :: ops => n + constructedCount ops
  | PageOp.clonePage _ :: ops => constructedCount ops
  | PageOp.dropHandle _ :: ops => constructedCount ops

/-- Number of pages whose last handle is dropped during a sequence of
operations, starting from the given refcounts. -/
def destroyedCount (live : List Nat) : List PageOp → Nat
  | [] => 0
  | PageOp.alloc n :: ops => destroyedCount (live ++ List.replicate n 1) ops
  | PageOp.clonePage i :: ops =>
    if i < live.length then destroyedCount (live.set i (live.getD i 0 + 1)) ops
    else destroyedCount live ops
  | PageOp.dropHandle i :: ops =>
    if i < live.length then
      if live.getD i 0 = 1 then destroyedCount (live.eraseIdx i) ops + 1
      else destroyedCount (live.set i (live.getD i 0 - 1)) ops
    else destroyedCount live ops

/-- A sequence is valid when every clone and drop names a live page: a caller
can only clone or drop a handle it actually holds. -/
def validOps (live : List Nat) : List PageOp → Bool
  | [] => true
  | PageOp.alloc n :: ops => validOps (live ++ List.replicate n 1) ops
  | PageOp.clonePage i :: ops =>
    decide (i < live.length) && validOps (live.set i (live.getD i 0 + 1)) ops
  | PageOp.dropHandle i :: ops =>
    decide (i < live.length) &&
      (if live.getD i 0 = 1 then validOps (live.eraseIdx i) ops
       else validOps (live.set i (live.getD i 0 - 1)) ops)

/-! Helper lemmas shared by several claims. -/

/-- Reading back each allocated page through contents gives exactly the input
pairs, in order. -/
theorem allocate_map_contents (a : HeapBasedPageAllocator) (c : Int)
    (pairs : List (PageIndex × PageBytes)) :
    ((a.allocate c pairs).2).map (fun q => (q.1, q.2.contents a)) = pairs := by
  induction pairs generalizing c with
  | nil => rfl
  | cons hd tl ih =>
    obtain ⟨i, b⟩ := hd
    have h := ih (c + 1)
    simp [HeapBasedPage.contents] at h
    simp [HeapBasedPageAllocator.allocate, HeapBasedPage.new, HeapBasedPage.contents, h]

/-- Allocation produces exactly one output pair per input pair. -/
theorem allocate_length (a : HeapBasedPageAllocator) (c : Int)
    (pairs : List (PageIndex × PageBytes)) :
    ((a.allocate c pairs).2).length = pairs.length := by
  induction pairs generalizing c with
  | nil => rfl
  | cons hd tl ih =>
    obtain ⟨i, b⟩ := hd
    simp [HeapBasedPageAllocator.allocate, ih]

/-! Claim theorems. -/

/-- C8: serialize always returns the zero-payload heap-backend tag
(PageAllocatorSerialization.Heap), carrying no other state, for every heap
allocator instance. -/
theorem serialize_always_heap_tag (a : HeapBasedPageAllocator) :
    a.serialize = PageAllocatorSerialization.Heap :=
  rfl

/-- C5: deserialize reconstructs a default allocator from the Heap tag, panics
(none) on the other backend's Mmap tag, and deserialize after serialize always
succeeds with a default instance. -/
theorem deserialize_tag_contract :
    HeapBasedPageAllocator.deserialize PageAllocatorSerialization.Heap = some ⟨⟩ ∧
    (∀ ctx : MmapCtx,
      HeapBasedPageAllocator.deserialize (PageAllocatorSerialization.Mmap ctx) = none) ∧
    (∀ a : HeapBasedPageAllocator,
      HeapBasedPageAllocator.deserialize a.serialize = some ⟨⟩) := by
  refine ⟨rfl, fun ctx => rfl, fun a => rfl⟩

/-- C10: deserialize panics (none) not only on the Mmap tag but also on the
Empty tag; it succeeds exactly when the tag is Heap. -/
theorem deserialize_succeeds_iff_heap_tag :
    HeapBasedPageAllocator.deserialize PageAllocatorSerialization.Empty = none ∧
    (∀ t : PageAllocatorSerialization,
      (HeapBasedPageAllocator.deserialize t).isSome = true ↔
        t = PageAllocatorSerialization.Heap) := by
  refine ⟨rfl, fun t => ?_⟩
  cases t <;> simp [HeapBasedPageAllocator.deserialize]

/-- C6: deserialize_page_delta fails fatally (none) on every payload whose tag
is not the heap tag, an Empty or Mmap payload, and never returns any pairs
from such a payload. -/
theorem deserialize_page_delta_cross_tag_rejection (a : HeapBasedPageAllocator) (c : Int) :
    a.deserialize_page_delta c PageDeltaSerialization.Empty = none ∧
    (∀ (ctx : MmapCtx) (pages : List (PageIndex × Nat)),
      a.deserialize_page_delta c (PageDeltaSerialization.Mmap ctx pages) = none) := by
  exact ⟨rfl, fun ctx pages => rfl⟩

/-- C2, evaluated at the failing input: decoding a Heap payload holding one
record leaves the counter at 0 instead of incrementing it to 1, because the
code builds each page with the HeapBasedPage tuple constructor instead of
HeapBasedPage::new; the record is still reconstructed content-for-content. -/
theorem deserialize_page_delta_does_not_increment_counter :
    HeapBasedPageAllocator.deserialize_page_delta ⟨⟩ 0
        (PageDeltaSerialization.Heap [⟨3, List.replicate PAGE_SIZE 0⟩]) =
      some (0, [(3, ⟨List.replicate PAGE_SIZE 0⟩)]) :=
  rfl

/-- C4: allocate never fails and returns exactly one output pair per input pair,
in input order, with the same index and with contents (read through the same
allocator) equal to the input bytes. -/
theorem allocate_spec (a : HeapBasedPageAllocator) (c : Int)
    (pairs : List (PageIndex × PageBytes)) :
    ((a.allocate c pairs).2).length = pairs.length ∧
    ((a.allocate c pairs).2).map (fun q => (q.1, q.2.contents a)) = pairs :=
  ⟨allocate_length a c pairs, allocate_map_contents a c pairs⟩

/-- C9: allocate does not enforce index uniqueness: on an input whose indices
are not pairwise distinct it still returns one output pair per input pair, in
input order, each with its own position's index and a fresh copy of its own
position's bytes. -/
theorem allocate_allows_duplicate_indices (a : HeapBasedPageAllocator) (c : Int)
    (pairs : List (PageIndex × PageBytes))
    (hdup : ¬ (pairs.map Prod.fst).Nodup) :
    ((a.allocate c pairs).2).length = pairs.length ∧
    ((a.allocate c pairs).2).map (fun q => (q.1, q.2.contents a)) = pairs :=
  ⟨allocate_length a c pairs, allocate_map_contents a c pairs⟩

/-- Witness for C9 at a concrete duplicated input. -/
theorem allocate_allows_duplicate_indices_witness :
    ¬ (([(3, [1, 2]), (3, [4, 5])] : List (PageIndex × PageBytes)).map Prod.fst).Nodup ∧
    ((((⟨⟩ : HeapBasedPageAllocator).allocate 0 [(3, [1, 2]), (3, [4, 5])]).2).length =
        ([(3, [1, 2]), (3, [4, 5])] : List (PageIndex × PageBytes)).length ∧
      (((⟨⟩ : HeapBasedPageAllocator).allocate 0 [(3, [1, 2]), (3, [4, 5])]).2).map
          (fun q => (q.1, q.2.contents ⟨⟩)) = [(3, [1, 2]), (3, [4, 5])]) :=
  ⟨by decide,
    allocate_allows_duplicate_indices ⟨⟩ 0 [(3, [1, 2]), (3, [4, 5])] (by decide)⟩

/-- Mapping a heap page record back through the record-to-page step of
deserialize_page_delta is the identity on allocated pages. -/
theorem record_page_round_trip (ps : List (PageIndex × HeapBasedPage)) :
    (ps.map fun q => ((⟨q.1, q.2.contents ⟨⟩⟩ : PageSerialization).index,
      (⟨(⟨q.1, q.2.contents ⟨⟩⟩ : PageSerialization).bytes⟩ : HeapBasedPage))) = ps := by
  have h : (fun q : PageIndex × HeapBasedPage =>
      ((⟨q.1, q.2.contents ⟨⟩⟩ : PageSerialization).index,
        (⟨(⟨q.1, q.2.contents ⟨⟩⟩ : PageSerialization).bytes⟩ : HeapBasedPage))) = id := by
    funext q
    obtain ⟨i, p⟩ := q
    rfl
  rw [h, List.map_id]

/-- C1: allocating a non-empty list of pairs with pairwise-distinct indices,
serializing the pages with serialize_page_delta and decoding with
deserialize_page_delta succeeds and yields pairs whose indices equal the
original indices and whose contents are byte-for-byte the original bytes,
index-for-index. -/
theorem page_delta_round_trip (c : Int) (pairs : List (PageIndex × PageBytes))
    (hne : pairs ≠ []) (hnodup : (pairs.map Prod.fst).Nodup) :
    ∃ out : List (PageIndex × HeapBasedPage),
      (⟨⟩ : HeapBasedPageAllocator).deserialize_page_delta
          (((⟨⟩ : HeapBasedPageAllocator).allocate c pairs).1)
          ((⟨⟩ : HeapBasedPageAllocator).serialize_page_delta
            (((⟨⟩ : HeapBasedPageAllocator).allocate c pairs).2)) =
        some ((((⟨⟩ : HeapBasedPageAllocator).allocate c pairs).1), out) ∧
      out.map Prod.fst = pairs.map Prod.fst ∧
      out.map (fun q => (q.1, q.2.contents ⟨⟩)) = pairs := by
  refine ⟨(((⟨⟩ : HeapBasedPageAllocator).allocate c pairs).2), ?_, ?_, ?_⟩
  · simp only [HeapBasedPageAllocator.serialize_page_delta,
      HeapBasedPageAllocator.deserialize_page_delta, List.map_map, Function.comp_def]
    rw [record_page_round_trip]
  · have h := allocate_map_contents ⟨⟩ c pairs
    calc (((⟨⟩ : HeapBasedPageAllocator).allocate c pairs).2).map Prod.fst
        = ((((⟨⟩ : HeapBasedPageAllocator).allocate c pairs).2).map
            (fun q => (q.1, q.2.contents ⟨⟩))).map Prod.fst := by
          rw [List.map_map]
          rfl
      _ = pairs.map Prod.fst := by rw [h]
  · exact allocate_map_contents ⟨⟩ c pairs

/-- Witness for C1 at the spec's concrete scenario: indices 3 and 7 with an
all-zero and an all-255 page. -/
theorem page_delta_round_trip_witness :
    ∃ out : List (PageIndex × HeapBasedPage),
      (⟨⟩ : HeapBasedPageAllocator).deserialize_page_delta
          (((⟨⟩ : HeapBasedPageAllocator).allocate 0
            [(3, List.replicate PAGE_SIZE 0), (7, List.replicate PAGE_SIZE 255)]).1)
          ((⟨⟩ : HeapBasedPageAllocator).serialize_page_delta
            (((⟨⟩ : HeapBasedPageAllocator).allocate 0
              [(3, List.replicate PAGE_SIZE 0), (7, List.replicate PAGE_SIZE 255)]).2)) =
        some ((((⟨⟩ : HeapBasedPageAllocator).allocate 0
          [(3, List.replicate PAGE_SIZE 0), (7, List.replicate PAGE_SIZE 255)]).1), out) ∧
      out.map Prod.fst =
        ([(3, List.replicate PAGE_SIZE 0), (7, List.replicate PAGE_SIZE 255)] :
          List (PageIndex × PageBytes)).map Prod.fst ∧
      out.map (fun q => (q.1, q.2.contents ⟨⟩)) =
        [(3, List.replicate PAGE_SIZE 0), (7, List.replicate PAGE_SIZE 255)] :=
  page_delta_round_trip 0
    [(3, List.replicate PAGE_SIZE 0), (7, List.replicate PAGE_SIZE 255)]
    (by simp) (by decide)

/-- C3: over any valid sequence of allocate, clone and drop operations, the
live-page counter changes by exactly the number of pages constructed minus the
number of pages whose last handle was dropped: each construction increments it
once and each destruction decrements it once. -/
theorem counter_conservation (st : PageOpState) (ops : List PageOp)
    (hvalid : validOps st.live ops = true) :
    (execOps st ops).counter =
      st.counter + (constructedCount ops : Int) - (destroyedCount st.live ops : Int) := by
  clear hvalid
  induction ops generalizing st with
  | nil => simp [execOps, constructedCount, destroyedCount]
  | cons op ops ih =>
    cases op with
    | alloc n =>
      have h := ih ⟨st.counter + n, st.live ++ List.replicate n 1⟩
      simp only [execOps, execOp, constructedCount, destroyedCount] at h ⊢
      rw [h]
      push_cast
      ring
    | clonePage i =>
      by_cases hi : i < st.live.length
      · have h := ih ⟨st.counter, st.live.set i (st.live.getD i 0 + 1)⟩
        simp only [execOps, execOp, constructedCount, destroyedCount, if_pos hi] at h ⊢
        exact h
      · have h := ih st
        simp only [execOps, execOp, constructedCount, destroyedCount, if_neg hi] at h ⊢
        exact h
    | dropHandle i =>
      by_cases hi : i < st.live.length
      · by_cases hone : st.live.getD i 0 = 1
        · have h := ih ⟨st.counter - 1, st.live.eraseIdx i⟩
          simp only [execOps, execOp, constructedCount, destroyedCount,
            if_pos hi, if_pos hone] at h ⊢
          rw [h]
          push_cast
          ring
        · have h := ih ⟨st.counter, st.live.set i (st.live.getD i 0 - 1)⟩
          simp only [execOps, execOp, constructedCount, destroyedCount,
            if_pos hi, if_neg hone] at h ⊢
          exact h
      · have h := ih st
        simp only [execOps, execOp, constructedCount, destroyedCount, if_neg hi] at h ⊢
        exact h

/-- Witness for C3 at the spec's particular scenario: allocate 5 pages, then
drop the only handle of 3 of them; the counter ends exactly 2 higher. -/
theorem counter_conservation_witness :
    validOps ([] : List Nat)
        [PageOp.alloc 5, PageOp.dropHandle 0, PageOp.dropHandle 0, PageOp.dropHandle 0] =
      true ∧
    (execOps ⟨0, []⟩
        [PageOp.alloc 5, PageOp.dropHandle 0, PageOp.dropHandle 0, PageOp.dropHandle 0]).counter =
      0 + 5 - 3 :=
  ⟨by decide,
    (counter_conservation ⟨0, []⟩
        [PageOp.alloc 5, PageOp.dropHandle 0, PageOp.dropHandle 0, PageOp.dropHandle 0]
        (by decide)).trans (by decide)⟩

/-- C7: on a full-size heap page, copy_from_slice with offset + slice length
within the page size succeeds, overwrites exactly the bytes in
[offset, offset + slice length) with the slice, leaves every byte outside that
range unchanged, and keeps the page size; with the precondition violated it
panics (none) instead of returning. -/
theorem copy_from_slice_frame (p : HeapBasedPage) (offset : Nat) (slice : List Nat)
    (a : HeapBasedPageAllocator) (hp : p.bytes.length = PAGE_SIZE) :
    (offset + slice.length ≤ PAGE_SIZE →
      ∃ p' : HeapBasedPage,
        p.copy_from_slice offset slice a = some p' ∧
        p'.bytes.length = PAGE_SIZE ∧
        (∀ i : Nat, offset ≤ i → i < offset + slice.length →
          p'.bytes.getD i 0 = slice.getD (i - offset) 0) ∧
        (∀ i : Nat, i < offset ∨ offset + slice.length ≤ i →
          p'.bytes.getD i 0 = p.bytes.getD i 0)) ∧
    (PAGE_SIZE < offset + slice.length →
      p.copy_from_slice offset slice a = none) := by
  have ht : (p.bytes.take offset).length = min offset p.bytes.length :=
    List.length_take offset p.bytes
  constructor
  · intro h
    have hcond : offset + slice.length ≤ p.bytes.length := by omega
    have htl : (p.bytes.take offset).length = offset := by omega
    refine ⟨⟨p.bytes.take offset ++ slice ++ p.bytes.drop (offset + slice.length)⟩,
      ?_, ?_, ?_, ?_⟩
    · simp [HeapBasedPage.copy_from_slice, if_pos hcond]
    · simp only [List.length_append, List.length_take, List.length_drop]
      omega
    · intro i h1 h2
      simp only [List.getD_eq_getElem?_getD, List.append_assoc]
      rw [List.getElem?_append_right (by omega), htl,
        List.getElem?_append_left (by omega)]
    · intro i hout
      simp only [List.getD_eq_getElem?_getD, List.append_assoc]
      rcases hout with hlt | hge
      · rw [List.getElem?_append_left (by omega), List.getElem?_take, if_pos hlt]
      · rw [List.getElem?_append_right (by omega), htl,
          List.getElem?_append_right (by omega), List.getElem?_drop]
        have harith : offset + slice.length + (i - offset - slice.length) = i := by omega
        rw [harith]
  · intro h
    have hcond : ¬ offset + slice.length ≤ p.bytes.length := by omega
    simp [HeapBasedPage.copy_from_slice, if_neg hcond]

/-- Witness for C7: writing two bytes at offset 1 of an all-zero full page. -/
theorem copy_from_slice_frame_witness :
    ∃ p' : HeapBasedPage,
      HeapBasedPage.copy_from_slice ⟨List.replicate PAGE_SIZE 0⟩ 1 [7, 9] ⟨⟩ = some p' ∧
      p'.bytes.length = PAGE_SIZE ∧
      (∀ i : Nat, 1 ≤ i → i < 1 + ([7, 9] : List Nat).length →
        p'.bytes.getD i 0 = ([7, 9] : List Nat).getD (i - 1) 0) ∧
      (∀ i : Nat, i < 1 ∨ 1 + ([7, 9] : List Nat).length ≤ i →
        p'.bytes.getD i 0 =
          (⟨List.replicate PAGE_SIZE 0⟩ : HeapBasedPage).bytes.getD i 0) :=
  (copy_from_slice_frame ⟨List.replicate PAGE_SIZE 0⟩ 1 [7, 9] ⟨⟩
      (by simp)).1 (by decide)

end HeapPageAlloc
